import Mathlib

/-!
# Verification of the nbs-cli mirror-resolution and retrieval engine

Shallow embedding of `src/nbs_cli/fetcher.py` (Nitrux/nbs): task construction
(`build_probe_tasks`), metadata probing (`fetch_package_metadata`), candidate
selection and download fallback (`get_latest_deb`).

External effects (network requests, gzip decompression, random shuffling and
random jitter) are modelled as explicit oracle parameters; stateful code is
modelled by explicit state passing; trace information (request counts, sleep
delays, accumulated error logs) is returned alongside results so that claims
about attempt counts and retry passes can be stated.
-/

open Batteries

namespace Nbs

/-! ## Generic comparator combinators

The Debian version comparison algorithm (dpkg `verrevcmp`) compares two
strings as if the shorter one were padded at the end with a neutral element
(end-of-string behaves like a character of order `0`, and a missing numeric
part like the number `0`).  `cmpPadded f e` is that padded lexicographic
lifting of a comparator `f` with neutral element `e`. -/

/-- Comparison of a pad-extension against a remaining list: each missing
element on the left counts as the pad element `e`. -/
def cmpPadNil (f : α → α → Ordering) (e : α) : List α → Ordering
  | [] => .eq
  | b :: bs => (f e b).then (cmpPadNil f e bs)

/-- Comparison of a remaining list against a pad-extension: each missing
element on the right counts as the pad element `e`. -/
def cmpNilPad (f : α → α → Ordering) (e : α) : List α → Ordering
  | [] => .eq
  | a :: as => (f a e).then (cmpNilPad f e as)

/-- Padded lexicographic comparison of two lists: compare elementwise with
`f`, treating a missing element (shorter list) as the pad element `e`. -/
def cmpPadded (f : α → α → Ordering) (e : α) : List α → List α → Ordering
  | [], ys => cmpPadNil f e ys
  | x :: xs, [] => (f x e).then (cmpNilPad f e xs)
  | x :: xs, y :: ys => (f x y).then (cmpPadded f e xs ys)

/-- Comparison of `β` values through a key function `k` into a comparator on `α`. -/
def cmpOn (k : β → α) (f : α → α → Ordering) : β → β → Ordering :=
  fun x y => f (k x) (k y)

/-! ## Debian version comparison

Modelled from the spec: the code parses and compares versions with
`debian_support.Version` from the external `python-debian` library, which is
not vendored under `src/`.  The spec describes the semantics: "epoch, then
upstream component, then revision component, each compared by
numeric/alphabetic mixed rules, not plain string comparison" — this is the
standard dpkg `verrevcmp` algorithm: split a component into alternating
non-digit runs and numerals; non-digit runs compare by a modified character
order in which `~` sorts before end-of-string and letters sort before
non-letters; numerals compare by numeric value. -/

/-- Modified character order of dpkg `verrevcmp`: `~` sorts below everything
(including end of string, which acts as order `0`); digits act as order `0`
(they terminate a non-digit run); letters sort by code point; all other
characters sort after letters. -/
def charOrder (c : Char) : Int :=
  if c = '~' then -1
  else if c.isDigit then 0
  else if c.isAlpha then (c.toNat : Int)
  else (c.toNat : Int) + 256

/-- Compare two characters by their dpkg order value. -/
def charCmp : Char → Char → Ordering :=
  cmpOn charOrder compare

/-- Comparison of non-digit runs: padded elementwise character comparison,
where end-of-string pads with a character of order `0` (the digit `'0'`). -/
def cmpRun : List Char → List Char → Ordering :=
  cmpPadded charCmp '0'

/-- Numeric value of a digit string (leading zeros are insignificant, as in
dpkg numeral comparison). -/
def natOfDigits (l : List Char) : Nat :=
  l.foldl (fun n c => n * 10 + (c.toNat - '0'.toNat)) 0

/-- Tokenize a version component into alternating (non-digit run, digit run)
pairs, scanning right to left: a digit extends the leading numeral (or opens
a new token before a non-empty run), a non-digit extends the leading run. -/
def tokenizeC : List Char → List (List Char × List Char)
  | [] => []
  | c :: cs =>
    match tokenizeC cs with
    | [] => if c.isDigit then [([], [c])] else [([c], [])]
    | (r, d) :: ts =>
      if c.isDigit then
        if r = [] then ([], c :: d) :: ts
        else ([], [c]) :: (r, d) :: ts
      else (c :: r, d) :: ts

/-- Tokenize a version component into alternating (non-digit run, numeral)
pairs, the numeral taken by value. -/
def tokenize (l : List Char) : List (List Char × Nat) :=
  (tokenizeC l).map (fun t => (t.1, natOfDigits t.2))

/-- Compare two tokens: first the non-digit run, then the numeral.  The pad
token (for the exhausted string) is the empty run with numeral `0`. -/
def tokCmp : (List Char × Nat) → (List Char × Nat) → Ordering :=
  compareLex (cmpOn Prod.fst cmpRun) (cmpOn Prod.snd compare)

/-- Compare two token lists, padding the shorter with empty tokens. -/
def cmpTokens : List (List Char × Nat) → List (List Char × Nat) → Ordering :=
  cmpPadded tokCmp ([], 0)

/-- The dpkg `verrevcmp` string comparison: tokenize and compare. -/
def verrevcmp : String → String → Ordering :=
  cmpOn (fun s => tokenize s.toList) cmpTokens

/-- A parsed Debian version: `epoch:upstream-revision`. -/
structure DebVersion where
  epoch : Nat
  upstream : String
  revision : String
deriving Repr, DecidableEq

/-- Drop everything up to and including the first occurrence of `sep`;
`none` if `sep` does not occur. -/
def dropToAfter (sep : List Char) : List Char → Option (List Char)
  | [] => none
  | c :: cs =>
    if sep.isPrefixOf (c :: cs) then some ((c :: cs).drop sep.length)
    else dropToAfter sep cs

/-- Take everything strictly before the first occurrence of `sep` (the whole
list if `sep` does not occur). -/
def takeUntil (sep : List Char) : List Char → List Char
  | [] => []
  | c :: cs => if sep.isPrefixOf (c :: cs) then [] else c :: takeUntil sep cs

/-- Whether `sub` occurs as a contiguous subsequence of the second list
(Python's `sub in s`). -/
def containsSeq (sub : List Char) : List Char → Bool
  | [] => sub.isEmpty
  | c :: cs => sub.isPrefixOf (c :: cs) || containsSeq sub cs

/-- Whether the string `sub` occurs inside `s`. -/
def strContains (s sub : String) : Bool :=
  containsSeq sub.toList s.toList

/-- Modelled from the spec: `debian_support.Version` parsing (library not
vendored under `src/`).  The optional epoch is the digit string before the
first `:` (default `0`); the revision is the part after the last `-`
(compared as `"0"` when absent); the upstream component is what remains. -/
def parseDebVersion (s : String) : DebVersion :=
  let cl := s.toList
  let (epoch, rest) :=
    match dropToAfter [':'] cl with
    | some r => (natOfDigits ((takeUntil [':'] cl).takeWhile Char.isDigit), r)
    | none => (0, cl)
  match dropToAfter ['-'] rest.reverse with
  | some revUpstream =>
      ⟨epoch, String.mk revUpstream.reverse, String.mk (takeUntil ['-'] rest.reverse).reverse⟩
  | none => ⟨epoch, String.mk rest, "0"⟩

/-- Modelled from the spec: the full Debian version comparison — epoch
(numeric), then upstream, then revision, the latter two by `verrevcmp`. -/
def debCompare : DebVersion → DebVersion → Ordering :=
  compareLex (cmpOn DebVersion.epoch compare)
    (compareLex (cmpOn DebVersion.upstream verrevcmp) (cmpOn DebVersion.revision verrevcmp))

/-! ## Candidate Selector (`get_latest_deb`, lines 218-230)

A download candidate as built in `get_latest_deb` from a successful probe
(or from the PPA path). -/

/-- One download candidate: parsed version, raw version string, artifact URL,
destination path, and a human-readable source label. -/
structure Candidate where
  version : DebVersion
  version_str : String
  url : String
  path : String
  source : String
deriving Repr, DecidableEq

/-- Insert a version into a descending-sorted list of versions (one step of
the sort underlying `sorted(version_groups.keys(), reverse=True)`). -/
def insertDesc (v : DebVersion) : List DebVersion → List DebVersion
  | [] => [v]
  | w :: ws => if debCompare v w = .gt then v :: w :: ws else w :: insertDesc v ws

/-- Sort versions in descending order under `debCompare`, embedding
`sorted_versions = sorted(version_groups.keys(), reverse=True)`.  The keys
are pairwise non-equal under `debCompare` (they are distinct dict keys), so
any comparison sort produces the same descending sequence; an insertion sort
is used here. -/
def sortVersionsDesc (l : List DebVersion) : List DebVersion :=
  l.foldr insertDesc []

/-- One step of collecting the distinct version keys of
`version_groups = defaultdict(list)`: a candidate's version becomes a new
key unless an equal (under `debCompare`, which models `Version.__eq__`) key
is already present. -/
def addVersionKey (acc : List DebVersion) (c : Candidate) : List DebVersion :=
  if acc.any (fun v => debCompare v c.version = .eq) then acc else acc ++ [c.version]

/-- The distinct version keys of `version_groups`, in first-appearance order. -/
def distinctVersions (cands : List Candidate) : List DebVersion :=
  cands.foldl addVersionKey []

/-- The group of candidates filed under version key `v`: all candidates whose
version equals `v` under `debCompare`, in arrival order. -/
def versionGroup (cands : List Candidate) (v : DebVersion) : List Candidate :=
  cands.filter (fun c => debCompare c.version v = .eq)

/-- The Candidate Selector (`get_latest_deb` lines 218-230): group candidates
by version, sort the distinct versions descending, shuffle within each group
(`shuf` is the shuffle oracle standing for `random.shuffle`), and concatenate
the groups in version-descending order. -/
def selectCandidates (shuf : List Candidate → List Candidate) (cands : List Candidate) :
    List Candidate :=
  ((sortVersionsDesc (distinctVersions cands)).map (fun v => shuf (versionGroup cands v))).flatten

/-! ## Retrieval Engine (`get_latest_deb`, lines 240-264)

Download attempts are sequential, one `download_file` call per candidate per
pass.  The download oracle `dl` gives the outcome of the `i`-th call overall
(`.ok ()` = success, in which case `download_file` returns the destination
path; `.error e` = the classified `RuntimeError` text).  The trace returned
is (result, number of `download_file` calls, accumulated `download_errors`). -/

/-- A `download_errors` entry, as formatted in `get_latest_deb`:
`f"{pkg_name}: {e} ← {url}"` in the first pass and
`f"{pkg_name} (retry): {e} ← {url}"` in the retry pass. -/
def downloadErrMsg (retry : Bool) (pkg e url : String) : String :=
  if retry then pkg ++ " (retry): " ++ e ++ " ← " ++ url
  else pkg ++ ": " ++ e ++ " ← " ++ url

/-- One pass of the download loop: try each candidate in order, returning the
first successful candidate's destination path, or `none` after appending one
error entry per failed candidate. -/
def runPass (dl : Nat → Except String Unit) (pkg : String) (retry : Bool) :
    List Candidate → Nat → List String → Option String × Nat × List String
  | [], n, errs => (none, n, errs)
  | c :: cs, n, errs =>
    match dl n with
    | .ok _ => (some c.path, n + 1, errs)
    | .error e => runPass dl pkg retry cs (n + 1) (errs ++ [downloadErrMsg retry pkg e c.url])

/-- The message of the exhaustion `RuntimeError` raised when both passes fail. -/
def allMirrorsFailedMsg (pkg : String) : String :=
  "⛔ All mirrors failed to download: " ++ pkg ++ "."

/-- The two-pass download phase of `get_latest_deb`: a first pass over the
ordered candidates, then (only if it found no success) exactly one retry
pass, then the exhaustion error. -/
def downloadPhase (dl : Nat → Except String Unit) (pkg : String) (cands : List Candidate) :
    Except String String × Nat × List String :=
  let r1 := runPass dl pkg false cands 0 []
  match r1.1 with
  | some p => (.ok p, r1.2.1, r1.2.2)
  | none =>
    let r2 := runPass dl pkg true cands r1.2.1 r1.2.2
    match r2.1 with
    | some p => (.ok p, r2.2.1, r2.2.2)
    | none => (.error (allMirrorsFailedMsg pkg), r2.2.1, r2.2.2)

/-! ## Metadata record scan (`fetch_package_metadata`, lines 288-309) -/

/-- Python whitespace for `str.strip()`. -/
def pyIsSpace (c : Char) : Bool :=
  c = ' ' || c = '\t' || c = '\n' || c = '\r' || c = '\x0b' || c = '\x0c'

/-- Python `str.strip()`: drop whitespace from both ends. -/
def pyStrip (l : List Char) : List Char :=
  ((l.dropWhile pyIsSpace).reverse.dropWhile pyIsSpace).reverse

/-- Python `line.split(sep)[1]` for a separator that occurs in `line`: the
text between the first and second occurrence of `sep` (to the end if `sep`
occurs only once).  Returns `[]` when `sep` does not occur (Python would
raise `IndexError`; the code only calls this under a `startswith` guard). -/
def pySplitGet1 (sep l : List Char) : List Char :=
  match dropToAfter sep l with
  | none => []
  | some rest => takeUntil sep rest

/-- The parser state of the index scan: the current record's package name and
the captured `Filename`/`Version` values (reset at each `Package:` line). -/
structure ScanState where
  current_package : Option (List Char)
  filename : Option (List Char)
  version : Option (List Char)
deriving Repr, DecidableEq

/-- One line of the index scan: strip the line, then the `elif` chain over
`Package: `, `Version: `, `Filename: `. -/
def scanStep (pkg : List Char) (st : ScanState) (rawLine : String) : ScanState :=
  let line := pyStrip rawLine.toList
  let pkgSep := "Package: ".toList
  let verSep := "Version: ".toList
  let fileSep := "Filename: ".toList
  if pkgSep.isPrefixOf line then
    ⟨some (pySplitGet1 pkgSep line), none, none⟩
  else if verSep.isPrefixOf line && st.current_package == some pkg then
    ⟨st.current_package, st.filename, some (pySplitGet1 verSep line)⟩
  else if fileSep.isPrefixOf line && st.current_package == some pkg then
    ⟨st.current_package, some (pySplitGet1 fileSep line), st.version⟩
  else st

/-- The early-return check performed after each line: if the current record
matches and both fields are (truthily — Python `and` on strings) present,
the scan returns `(filename, version)` immediately. -/
def scanHit (pkg : List Char) (st : ScanState) : Option (String × String) :=
  match st.filename, st.version with
  | some (f :: fs), some (v :: vs) =>
    if st.current_package = some pkg then some (String.mk (f :: fs), String.mk (v :: vs))
    else none
  | _, _ => none

/-- The index scan loop: process lines in order, returning at the first line
after which the early-return check fires. -/
def scanGo (pkg : List Char) : List String → ScanState → Option (String × String)
  | [], _ => none
  | l :: ls, st =>
    let st' := scanStep pkg st l
    match scanHit pkg st' with
    | some r => some r
    | none => scanGo pkg ls st'

/-- Scan the cached index lines for the requested package's `Filename` and
`Version` (lines 288-309 of `fetch_package_metadata`). -/
def scanLines (pkg : String) (lines : List String) : Option (String × String) :=
  scanGo pkg.toList lines ⟨none, none, none⟩

/-! ## Metadata Prober (`fetch_package_metadata`, lines 267-328) -/

/-- The classified kind of a `requests.exceptions.RequestException`, in the
order tested by the `isinstance` chain (a `Timeout` that is also a
`ConnectionError` classifies as `timeout`; an `HTTPError` whose `response`
is `None` falls through to `other` with its class name). -/
inductive ReqError where
  | timeout
  | connError
  | httpError (code : Nat)
  | other (excName : String)
deriving Repr, DecidableEq

/-- Outcome of one metadata request attempt (`session.get` +
`raise_for_status` + gzip decompression), supplied by the network oracle. -/
inductive NetResult where
  | fail (e : ReqError)
  | gzipFail (msg : String)
  | ok (lines : List String)
deriving Repr, DecidableEq

/-- The `reason` string computed after exhausting retries. -/
def reasonOf : ReqError → String
  | .timeout => "⌛ Timeout"
  | .connError => "🔌 Connection error"
  | .httpError code => "HTTP " ++ toString code
  | .other n => n

/-- The probed index URL:
`f"{mirror}/dists/{release}/{component}/binary-{arch}/Packages.gz"`. -/
def packagesUrl (mirror release arch component : String) : String :=
  mirror ++ "/dists/" ++ release ++ "/" ++ component ++ "/binary-" ++ arch ++ "/Packages.gz"

/-- Modelled from the spec: `urllib.parse.urlparse(url).hostname` for the
simple `http(s)://host/path` URLs built by `packagesUrl` (the `urllib`
library is not vendored under `src/`): the text between `://` and the next
`/` or `:`, lowercased. -/
def urlHostname (u : String) : String :=
  let afterScheme := (dropToAfter [':', '/', '/'] u.toList).getD []
  String.mk ((takeUntil [':'] (takeUntil ['/'] afterScheme)).map Char.toLower)

/-- The status message for a record-less index. -/
def noMetadataMsg (pkg mirror component : String) : String :=
  "⛔ No metadata for: " ++ pkg ++ " from: " ++ mirror ++ " [" ++ component ++ "]"

/-- The status message for a gzip decompression failure. -/
def decompressErrMsg (url gzerr : String) : String :=
  "❌ Error: Failed to decompress metadata from " ++ url ++ ": " ++ gzerr

/-- The status message after exhausting all retries on network errors. -/
def unableMsg (host : String) (retries : Nat) (reason : String) : String :=
  "⭢ 🚧 Unable to fetch metadata from: " ++ host ++ ": " ++ reason
    ++ " (after " ++ toString retries ++ " attempts)"

/-- The status message of the (unreachable for `retries ≥ 1`) fall-through
return after the attempt loop. -/
def unexpectedMsg (pkg mirror component : String) : String :=
  "⭢ 🚧 Unexpected error for " ++ pkg ++ " from " ++ mirror ++ " [" ++ component ++ "]"

/-- The observable outcome of one `fetch_package_metadata` call: the result
pair, the optional status message, the cache entry for this key afterwards,
the number of `session.get` requests issued, and the sleeps performed. -/
structure MetaResult where
  found : Option (String × String)
  status : Option String
  cacheAfter : Option (List String)
  requests : Nat
  sleeps : List ℚ
deriving Repr, DecidableEq

/-- The attempt loop of `fetch_package_metadata`, from attempt number
`attempt` with `rem` attempts remaining (`rem = retries - attempt + 1` at
each call; `rem = 0` is the fall-through return after the loop).  `net i`
is the outcome of the request of attempt `i`; `uniform i` is the
`random.uniform(0.2, 0.6)` draw slept after a failed attempt `i`.  The
cache entry for this key is `cache` (`none` = absent). -/
def fetchMetaGo (net : Nat → NetResult) (uniform : Nat → ℚ)
    (mirror release arch pkg component : String) (retries : Nat)
    (cache : Option (List String)) (attempt : Nat) : Nat → MetaResult
  | 0 => ⟨none, some (unexpectedMsg pkg mirror component), cache, 0, []⟩
  | rem + 1 =>
    match cache with
    | some lines =>
      match scanLines pkg lines with
      | some fv => ⟨some fv, none, cache, 0, []⟩
      | none => ⟨none, some (noMetadataMsg pkg mirror component), cache, 0, []⟩
    | none =>
      match net attempt with
      | .ok lines =>
        match scanLines pkg lines with
        | some fv => ⟨some fv, none, some lines, 1, []⟩
        | none => ⟨none, some (noMetadataMsg pkg mirror component), some lines, 1, []⟩
      | .gzipFail g =>
        ⟨none, some (decompressErrMsg (packagesUrl mirror release arch component) g), cache, 1, []⟩
      | .fail e =>
        if rem = 0 then
          ⟨none,
            some (unableMsg (urlHostname (packagesUrl mirror release arch component)) retries
              (reasonOf e)),
            cache, 1, []⟩
        else
          let r := fetchMetaGo net uniform mirror release arch pkg component retries cache
            (attempt + 1) rem
          ⟨r.found, r.status, r.cacheAfter, r.requests + 1, uniform attempt :: r.sleeps⟩

/-- The full `fetch_package_metadata` call for one cache key, starting at
attempt 1 with `retries` attempts available. -/
def fetch_package_metadata (net : Nat → NetResult) (uniform : Nat → ℚ)
    (mirror release arch pkg component : String) (cache : Option (List String))
    (retries : Nat := 3) : MetaResult :=
  fetchMetaGo net uniform mirror release arch pkg component retries cache 1 retries

/-! ## Mirror Registry and Task Builder (`build_probe_tasks`, lines 96-143) -/

/-- The Debian mirror list. -/
def debian_mirrors : List String :=
  ["https://ftp.debian.org/debian",
   "https://uk.mirrors.clouvider.net/debian",
   "https://atl.mirrors.clouvider.net/debian",
   "https://ftp.tu-clausthal.de/debian"]

/-- The Ubuntu mirror list. -/
def ubuntu_mirrors : List String :=
  ["https://archive.ubuntu.com/ubuntu",
   "https://security.ubuntu.com/ubuntu",
   "https://mirrors.kernel.org/ubuntu"]

/-- The Devuan mirror list. -/
def devuan_mirrors : List String :=
  ["http://deb.devuan.org/merged"]

/-- The Nitrux mirror list. -/
def nitrux_mirrors : List String :=
  ["https://packagecloud.io/nitrux/mauikit/debian"]

/-- The mirror registry: distro name to mirror list, `none` for unknown. -/
def get_mirrors_for_distro (distro : String) : Option (List String) :=
  if distro = "debian" then some debian_mirrors
  else if distro = "ubuntu" then some ubuntu_mirrors
  else if distro = "devuan" then some devuan_mirrors
  else if distro = "nitrux" then some nitrux_mirrors
  else none

/-- A repository descriptor dict.  Each field is `none` when the key is
absent.  `ppa` records the value of the `"ppa"` key when present — the code
tests only key membership (`"ppa" in repo`), never the value. -/
structure Repo where
  ppa : Option String := none
  distro : Option String := none
  release : Option String := none
  arch : Option String := none
  components : Option (List String) := none
deriving Repr, DecidableEq

/-- One probe task tuple `(mirror, release, arch, pkg_name, component)`. -/
structure ProbeTask where
  mirror : String
  release : String
  arch : String
  pkg_name : String
  component : String
deriving Repr, DecidableEq

/-- A diagnostic emitted by the Task Builder (printed when not quiet). -/
inductive Diag where
  | missingKeys (pkg : String) (repo : Repo)
  | unknownDistro (distro : String)
deriving Repr, DecidableEq

/-- Python `str.lower()` (ASCII case fold suffices for the distro names). -/
def pyLower (s : String) : String :=
  String.mk (s.toList.map Char.toLower)

/-- The Task Builder's handling of a single repository descriptor:
PPA-flagged descriptors are skipped silently; a missing (or empty — Python
truthiness) `distro`/`release`/`arch` yields one diagnostic and no tasks; an
unknown distro (or empty mirror list) yields one diagnostic and no tasks;
otherwise the mirror list is copied, shuffled (`shufFn` is the shuffle
oracle standing for `random.shuffle`), and one task is emitted per component
using the first mirror of the shuffled copy. -/
def perRepo (shufFn : List String → List String) (pkg : String) (quiet : Bool) (r : Repo) :
    List ProbeTask × List Diag :=
  if r.ppa.isSome then ([], [])
  else
    let distro := pyLower (r.distro.getD "")
    let release := r.release.getD ""
    let arch := r.arch.getD ""
    let components := r.components.getD ["main"]
    if distro = "" || release = "" || arch = "" then
      ([], if quiet then [] else [Diag.missingKeys pkg r])
    else
      match get_mirrors_for_distro distro with
      | none => ([], if quiet then [] else [Diag.unknownDistro distro])
      | some [] => ([], if quiet then [] else [Diag.unknownDistro distro])
      | some (m :: ms) =>
        let shuffled := shufFn (m :: ms)
        (components.flatMap
          (fun comp => (shuffled.take 1).map (fun mir => ⟨mir, release, arch, pkg, comp⟩)), [])

/-- The Task Builder loop from descriptor index `i`: concatenate each
descriptor's tasks and diagnostics.  `σ i` is the (independent, per-call)
shuffle applied for the `i`-th descriptor. -/
def buildGo (σ : Nat → List String → List String) (pkg : String) (quiet : Bool) :
    Nat → List Repo → List ProbeTask × List Diag
  | _, [] => ([], [])
  | i, r :: rs =>
    let td := perRepo (σ i) pkg quiet r
    let rest := buildGo σ pkg quiet (i + 1) rs
    (td.1 ++ rest.1, td.2 ++ rest.2)

/-- The full `build_probe_tasks(repos, pkg_name, quiet)`. -/
def build_probe_tasks (σ : Nat → List String → List String) (repos : List Repo)
    (pkg_name : String) (quiet : Bool) : List ProbeTask × List Diag :=
  buildGo σ pkg_name quiet 0 repos

/-- Whether a descriptor survives every filter of the Task Builder and
produces tasks. -/
def validRepo (r : Repo) : Bool :=
  r.ppa.isNone
    && !(pyLower (r.distro.getD "") == "")
    && !(r.release.getD "" == "")
    && !(r.arch.getD "" == "")
    && !((get_mirrors_for_distro (pyLower (r.distro.getD ""))).getD []).isEmpty

/-- The number of tasks a descriptor contributes: one per component when
valid, none otherwise. -/
def repoTaskCount (r : Repo) : Nat :=
  if validRepo r then (r.components.getD ["main"]).length else 0

/-- The PPA candidate collection of `get_latest_deb` (lines 163-167): each
descriptor containing a `"ppa"` key — whatever its value — is routed to
`fetch_from_ppa`, whose truthy results become candidates.  `fetch_from_ppa`
itself is not defined under `src/` and is modelled as the abstract oracle
`fetchFromPpa` (`none` = falsy result, skipped). -/
def collectPpaCandidates (fetchFromPpa : Repo → Option Candidate) (repos : List Repo) :
    List Candidate :=
  repos.flatMap (fun r => if r.ppa.isSome then (fetchFromPpa r).toList else [])

/-! ## Lawfulness of the comparators

`debCompare` is built from `compare` on `Nat`/`Int` by the combinators
`cmpOn`, `compareLex` and `cmpPadded`; the first two have `TransCmp`
instances already, and `cmpPadded` preserves `TransCmp` as proved here. -/

instance (k : β → α) (f : α → α → Ordering) [OrientedCmp f] : OrientedCmp (cmpOn k f) where
  symm x y := @OrientedCmp.symm _ f _ (k x) (k y)

instance (k : β → α) (f : α → α → Ordering) [TransCmp f] : TransCmp (cmpOn k f) where
  le_trans h1 h2 := @TransCmp.le_trans _ f _ _ _ _ h1 h2

theorem cmpPadded_nil_right (f : α → α → Ordering) (e : α) (x : List α) :
    cmpPadded f e x [] = cmpNilPad f e x := by
  cases x <;> rfl

theorem cmpPadded_head (f : α → α → Ordering) (e : α) [OrientedCmp f] (x y : List α) :
    cmpPadded f e x y = (f (x.headD e) (y.headD e)).then (cmpPadded f e x.tail y.tail) := by
  cases x <;> cases y <;>
    simp [cmpPadded, cmpPadNil, cmpNilPad, cmpPadded_nil_right, OrientedCmp.cmp_refl,
      Ordering.then]

theorem cmpPadded_symm (f : α → α → Ordering) (e : α) [OrientedCmp f] (x y : List α) :
    (cmpPadded f e x y).swap = cmpPadded f e y x := by
  suffices h : ∀ n x y, List.length x + List.length y ≤ n →
      (cmpPadded f e x y).swap = cmpPadded f e y x from
    h (x.length + y.length) x y le_rfl
  intro n
  induction n with
  | zero =>
    intro x y h
    cases x with
    | nil =>
      cases y with
      | nil => rfl
      | cons b bs => simp at h
    | cons a as => simp at h
  | succ n ih =>
    intro x y h
    by_cases hny : x = [] ∧ y = []
    · obtain ⟨rfl, rfl⟩ := hny
      rfl
    · have hlen : x.tail.length + y.tail.length ≤ n := by
        have hx := List.length_tail x
        have hy := List.length_tail y
        have : 0 < x.length ∨ 0 < y.length := by
          rcases not_and_or.mp hny with h' | h'
          · exact Or.inl (List.length_pos.mpr h')
          · exact Or.inr (List.length_pos.mpr h')
        omega
      rw [cmpPadded_head f e x y, cmpPadded_head f e y x, Ordering.swap_then,
        OrientedCmp.symm, ih _ _ hlen]

instance (f : α → α → Ordering) (e : α) [OrientedCmp f] : OrientedCmp (cmpPadded f e) where
  symm := cmpPadded_symm f e

theorem then_le_trans_aux (f : α → α → Ordering) [TransCmp f] {a b c : α} {p q r : Ordering}
    (hrec : p ≠ .gt → q ≠ .gt → r ≠ .gt)
    (h1 : (f a b).then p ≠ .gt) (h2 : (f b c).then q ≠ .gt) :
    (f a c).then r ≠ .gt := by
  rw [Ne, Ordering.then_eq_gt, not_or, not_and] at h1 h2 ⊢
  obtain ⟨h1a, h1b⟩ := h1
  obtain ⟨h2a, h2b⟩ := h2
  refine ⟨TransCmp.le_trans h1a h2a, fun heq => ?_⟩
  have hab : f a b = .eq := by
    cases hab : f a b with
    | lt => exact absurd (TransCmp.lt_le_trans hab h2a) (by rw [heq]; simp)
    | eq => rfl
    | gt => exact absurd hab h1a
  have hbc : f b c = .eq := by
    cases hbc : f b c with
    | lt => exact absurd (TransCmp.le_lt_trans h1a hbc) (by rw [heq]; simp)
    | eq => rfl
    | gt => exact absurd hbc h2a
  exact hrec (h1b hab) (h2b hbc)

theorem cmpPadded_le_trans (f : α → α → Ordering) (e : α) [TransCmp f] {x y z : List α}
    (h1 : cmpPadded f e x y ≠ .gt) (h2 : cmpPadded f e y z ≠ .gt) :
    cmpPadded f e x z ≠ .gt := by
  suffices h : ∀ n x y z, List.length x + List.length y + List.length z ≤ n →
      cmpPadded f e x y ≠ .gt → cmpPadded f e y z ≠ .gt → cmpPadded f e x z ≠ .gt from
    h (x.length + y.length + z.length) x y z le_rfl h1 h2
  intro n
  induction n with
  | zero =>
    intro x y z h
    cases x with
    | nil =>
      cases y with
      | nil =>
        cases z with
        | nil => intro _ _; simp [cmpPadded, cmpPadNil]
        | cons c cs => simp at h
      | cons b bs => simp at h
    | cons a as => simp at h
  | succ n ih =>
    intro x y z h hxy hyz
    by_cases hn : x = [] ∧ y = [] ∧ z = []
    · obtain ⟨rfl, rfl, rfl⟩ := hn
      simp [cmpPadded, cmpPadNil]
    · have hlen : x.tail.length + y.tail.length + z.tail.length ≤ n := by
        have hx := List.length_tail x
        have hy := List.length_tail y
        have hz := List.length_tail z
        have : 0 < x.length ∨ 0 < y.length ∨ 0 < z.length := by
          rcases not_and_or.mp hn with h' | h'
          · exact Or.inl (List.length_pos.mpr h')
          · rcases not_and_or.mp h' with h'' | h''
            · exact Or.inr (Or.inl (List.length_pos.mpr h''))
            · exact Or.inr (Or.inr (List.length_pos.mpr h''))
        omega
      rw [cmpPadded_head f e x y] at hxy
      rw [cmpPadded_head f e y z] at hyz
      rw [cmpPadded_head f e x z]
      exact then_le_trans_aux f (ih _ _ _ hlen) hxy hyz

instance (f : α → α → Ordering) (e : α) [TransCmp f] : TransCmp (cmpPadded f e) where
  le_trans := cmpPadded_le_trans f e

instance : TransCmp charCmp :=
  inferInstanceAs (TransCmp (cmpOn charOrder compare))

instance : TransCmp cmpRun :=
  inferInstanceAs (TransCmp (cmpPadded charCmp '0'))

instance : TransCmp tokCmp :=
  inferInstanceAs (TransCmp (compareLex (cmpOn Prod.fst cmpRun) (cmpOn Prod.snd compare)))

instance : TransCmp cmpTokens :=
  inferInstanceAs (TransCmp (cmpPadded tokCmp ([], 0)))

instance : TransCmp verrevcmp :=
  inferInstanceAs (TransCmp (cmpOn (fun s : String => tokenize s.toList) cmpTokens))

instance : TransCmp debCompare :=
  inferInstanceAs (TransCmp (compareLex (cmpOn DebVersion.epoch compare)
    (compareLex (cmpOn DebVersion.upstream verrevcmp) (cmpOn DebVersion.revision verrevcmp))))

/-! ## Sortedness of the Candidate Selector output -/

theorem mem_insertDesc {v a : DebVersion} {l : List DebVersion} (h : a ∈ insertDesc v l) :
    a = v ∨ a ∈ l := by
  induction l with
  | nil => simpa [insertDesc] using h
  | cons w ws ih =>
    by_cases hc : debCompare v w = .gt
    · rw [insertDesc, if_pos hc] at h
      simpa using h
    · rw [insertDesc, if_neg hc] at h
      rcases List.mem_cons.mp h with rfl | h
      · exact Or.inr (by simp)
      · rcases ih h with h | h
        · exact Or.inl h
        · exact Or.inr (by simp [h])

theorem insertDesc_perm (v : DebVersion) (l : List DebVersion) :
    (insertDesc v l).Perm (v :: l) := by
  induction l with
  | nil => exact List.Perm.refl _
  | cons w ws ih =>
    by_cases hc : debCompare v w = .gt
    · rw [insertDesc, if_pos hc]
    · rw [insertDesc, if_neg hc]
      exact (ih.cons w).trans (List.Perm.swap v w ws)

theorem insertDesc_pairwise {v : DebVersion} {l : List DebVersion}
    (hp : l.Pairwise (fun a b => debCompare a b ≠ .lt)) :
    (insertDesc v l).Pairwise (fun a b => debCompare a b ≠ .lt) := by
  induction l with
  | nil => simp [insertDesc]
  | cons w ws ih =>
    rw [List.pairwise_cons] at hp
    obtain ⟨hw, hws⟩ := hp
    by_cases hc : debCompare v w = .gt
    · rw [insertDesc, if_pos hc]
      refine List.pairwise_cons.mpr ⟨?_, List.pairwise_cons.mpr ⟨hw, hws⟩⟩
      intro b hb
      rcases List.mem_cons.mp hb with rfl | hb
      · rw [hc]; simp
      · intro hvb
        have hwb := hw b hb
        cases hwbc : debCompare w b with
        | lt => exact hwb hwbc
        | eq =>
          have h2 : debCompare v w = debCompare v b := TransCmp.cmp_congr_right hwbc
          rw [hc, hvb] at h2
          exact Ordering.noConfusion h2
        | gt =>
          have hbw : debCompare b w = .lt := OrientedCmp.cmp_eq_gt.mp hwbc
          have h2 : debCompare v w = .lt := TransCmp.lt_trans hvb hbw
          rw [hc] at h2
          exact Ordering.noConfusion h2
    · rw [insertDesc, if_neg hc]
      refine List.pairwise_cons.mpr ⟨?_, ih hws⟩
      intro b hb
      rcases mem_insertDesc hb with rfl | hb
      · exact fun hlt => hc (OrientedCmp.cmp_eq_gt.mpr hlt)
      · exact hw b hb

theorem sortVersionsDesc_pairwise (l : List DebVersion) :
    (sortVersionsDesc l).Pairwise (fun a b => debCompare a b ≠ .lt) := by
  induction l with
  | nil => simp [sortVersionsDesc]
  | cons v vs ih => exact insertDesc_pairwise ih

theorem sortVersionsDesc_perm (l : List DebVersion) : (sortVersionsDesc l).Perm l := by
  induction l with
  | nil => exact List.Perm.refl _
  | cons v vs ih => exact (insertDesc_perm v (sortVersionsDesc vs)).trans (ih.cons v)

theorem distinctVersions_sound (l : List Candidate) (acc : List DebVersion) (v : DebVersion)
    (h : v ∈ l.foldl addVersionKey acc) : v ∈ acc ∨ ∃ c ∈ l, c.version = v := by
  induction l generalizing acc with
  | nil => exact Or.inl (by simpa using h)
  | cons c cs ih =>
    rw [List.foldl_cons] at h
    rcases ih (addVersionKey acc c) h with h' | h'
    · rw [addVersionKey] at h'
      split at h'
      · exact Or.inl h'
      · rcases List.mem_append.mp h' with h'' | h''
        · exact Or.inl h''
        · exact Or.inr ⟨c, by simp, (List.mem_singleton.mp h'').symm⟩
    · obtain ⟨d, hd, hdv⟩ := h'
      exact Or.inr ⟨d, by simp [hd], hdv⟩

theorem distinctVersions_ne_nil {cands : List Candidate} (h : cands ≠ []) :
    distinctVersions cands ≠ [] := by
  have aux : ∀ (l : List Candidate) (acc : List DebVersion), acc ≠ [] →
      l.foldl addVersionKey acc ≠ [] := by
    intro l
    induction l with
    | nil => intro acc hacc; simpa using hacc
    | cons c cs ih =>
      intro acc hacc
      rw [List.foldl_cons]
      refine ih _ ?_
      rw [addVersionKey]
      split
      · exact hacc
      · simp
  cases cands with
  | nil => exact absurd rfl h
  | cons c cs =>
    rw [distinctVersions, List.foldl_cons]
    refine aux _ _ ?_
    rw [addVersionKey]
    simp

theorem mem_versionGroup {cands : List Candidate} {v : DebVersion} {c : Candidate} :
    c ∈ versionGroup cands v ↔ c ∈ cands ∧ debCompare c.version v = .eq := by
  simp [versionGroup]

/-- Claim C1 — For every non-empty set of candidates collected for one
package, the candidate sequence produced by the Candidate Selector
(`get_latest_deb` lines 218-230) is ordered by parsed version strictly
descending across version groups, whatever the arrival order of the probe
results (the input list `cands`) and whatever the within-group shuffles
(`shuf`, a permutation oracle): for any earlier candidate `a` and later
candidate `b` of the output, `b`'s version is not strictly greater than
`a`'s; the output is non-empty; and consequently the first candidate (the
one tried first by the Retrieval Engine) has a maximal version. -/
theorem candidate_selector_sorted (shuf : List Candidate → List Candidate)
    (hshuf : ∀ l, (shuf l).Perm l) (cands : List Candidate) (hne : cands ≠ []) :
    (selectCandidates shuf cands).Pairwise
        (fun a b => debCompare b.version a.version ≠ .gt)
      ∧ selectCandidates shuf cands ≠ []
      ∧ ∀ first ∈ (selectCandidates shuf cands).take 1,
          ∀ c ∈ selectCandidates shuf cands, debCompare c.version first.version ≠ .gt := by
  have hmemgroup : ∀ v (x : Candidate), x ∈ shuf (versionGroup cands v) →
      debCompare x.version v = .eq := by
    intro v x hx
    exact (mem_versionGroup.mp ((hshuf (versionGroup cands v)).mem_iff.mp hx)).2
  have hpair : (selectCandidates shuf cands).Pairwise
      (fun a b => debCompare b.version a.version ≠ .gt) := by
    rw [selectCandidates, List.pairwise_flatten]
    constructor
    · intro l hl
      obtain ⟨v, _, rfl⟩ := List.mem_map.mp hl
      refine List.pairwise_of_forall_mem_list ?_
      intro a ha b hb
      have hav := hmemgroup v a ha
      have hbv := hmemgroup v b hb
      have hrefl : debCompare v v = .eq := OrientedCmp.cmp_refl
      have hba : debCompare b.version a.version = debCompare v v :=
        (TransCmp.cmp_congr_left hbv).trans (TransCmp.cmp_congr_right hav)
      rw [hba, hrefl]
      simp
    · rw [List.pairwise_map]
      refine (sortVersionsDesc_pairwise (distinctVersions cands)).imp ?_
      intro v w hvw x hx y hy
      have hxv := hmemgroup v x hx
      have hyw := hmemgroup w y hy
      have heq : debCompare y.version x.version = debCompare w v :=
        (TransCmp.cmp_congr_left hyw).trans (TransCmp.cmp_congr_right hxv)
      rw [heq]
      intro hgt
      exact hvw (OrientedCmp.cmp_eq_gt.mp hgt)
  have hnonempty : selectCandidates shuf cands ≠ [] := by
    rw [selectCandidates]
    intro hnil
    rw [List.flatten_eq_nil_iff] at hnil
    obtain ⟨c0, hc0⟩ := List.exists_mem_of_ne_nil cands hne
    have hv : ∃ v, v ∈ distinctVersions cands ∧ ∃ c ∈ cands, c.version = v := by
      obtain ⟨v, hv⟩ := List.exists_mem_of_ne_nil _ (distinctVersions_ne_nil hne)
      exact ⟨v, hv, distinctVersions_sound cands [] v hv |>.resolve_left (by simp)⟩
    obtain ⟨v, hvmem, d, hd, hdv⟩ := hv
    have hvsort : v ∈ sortVersionsDesc (distinctVersions cands) :=
      (sortVersionsDesc_perm (distinctVersions cands)).mem_iff.mpr hvmem
    have hdg : d ∈ versionGroup cands v := by
      refine mem_versionGroup.mpr ⟨hd, ?_⟩
      rw [hdv]
      exact OrientedCmp.cmp_refl
    have hgne : shuf (versionGroup cands v) ≠ [] := by
      intro hgnil
      have h2 := (hshuf (versionGroup cands v)).symm
      rw [hgnil] at h2
      rw [h2.eq_nil] at hdg
      exact absurd hdg (List.not_mem_nil d)
    exact hgne (hnil _ (List.mem_map_of_mem _ hvsort))
  refine ⟨hpair, hnonempty, ?_⟩
  intro first hfirst c hc
  cases hsel : selectCandidates shuf cands with
  | nil => exact absurd hsel hnonempty
  | cons a rest =>
    rw [hsel] at hfirst hc
    have hfa : first = a := by simpa using hfirst
    subst hfa
    rw [hsel] at hpair
    rcases List.mem_cons.mp hc with rfl | hc
    · have hrefl : debCompare c.version c.version = .eq := OrientedCmp.cmp_refl
      rw [hrefl]
      simp
    · exact (List.pairwise_cons.mp hpair).1 c hc

/-- Witness for C1 at the spec's end-to-end example: mirror B's lower-version
candidate (`1:1.9-3`) arrives first, mirror A's `1:2.0-1` second; the
identity shuffle is a permutation. -/
theorem candidate_selector_sorted_witness :
    (selectCandidates id
          [⟨parseDebVersion "1:1.9-3", "1:1.9-3", "https://b/pool/foo.deb", "/c/foo.deb", "B [main]"⟩,
           ⟨parseDebVersion "1:2.0-1", "1:2.0-1", "https://a/pool/foo.deb", "/c/foo.deb", "A [main]"⟩]).Pairwise
        (fun a b => debCompare b.version a.version ≠ .gt)
      ∧ selectCandidates id
          [⟨parseDebVersion "1:1.9-3", "1:1.9-3", "https://b/pool/foo.deb", "/c/foo.deb", "B [main]"⟩,
           ⟨parseDebVersion "1:2.0-1", "1:2.0-1", "https://a/pool/foo.deb", "/c/foo.deb", "A [main]"⟩] ≠ []
      ∧ ∀ first ∈ (selectCandidates id
          [⟨parseDebVersion "1:1.9-3", "1:1.9-3", "https://b/pool/foo.deb", "/c/foo.deb", "B [main]"⟩,
           ⟨parseDebVersion "1:2.0-1", "1:2.0-1", "https://a/pool/foo.deb", "/c/foo.deb", "A [main]"⟩]).take 1,
          ∀ c ∈ selectCandidates id
            [⟨parseDebVersion "1:1.9-3", "1:1.9-3", "https://b/pool/foo.deb", "/c/foo.deb", "B [main]"⟩,
             ⟨parseDebVersion "1:2.0-1", "1:2.0-1", "https://a/pool/foo.deb", "/c/foo.deb", "A [main]"⟩],
            debCompare c.version first.version ≠ .gt :=
  candidate_selector_sorted id (fun l => List.Perm.refl l)
    [⟨parseDebVersion "1:1.9-3", "1:1.9-3", "https://b/pool/foo.deb", "/c/foo.deb", "B [main]"⟩,
     ⟨parseDebVersion "1:2.0-1", "1:2.0-1", "https://a/pool/foo.deb", "/c/foo.deb", "A [main]"⟩]
    (by decide)

/-! ## Retrieval Engine: first-success and exhaustion behaviour -/

theorem runPass_success (dl : Nat → Except String Unit) (pkg : String) (retry : Bool)
    (cands : List Candidate) (k : Nat) (hk : k < cands.length) (n0 : Nat) (errs : List String)
    (hfail : ∀ i, i < k → ∃ e, dl (n0 + i) = .error e) (hok : dl (n0 + k) = .ok ()) :
    ∃ errs2, runPass dl pkg retry cands n0 errs
      = (some ((cands.get ⟨k, hk⟩).path), n0 + k + 1, errs2) := by
  induction cands generalizing k n0 errs with
  | nil => simp at hk
  | cons c cs ih =>
    cases k with
    | zero =>
      rw [Nat.add_zero] at hok
      refine ⟨errs, ?_⟩
      simp only [runPass, hok]
      rfl
    | succ k =>
      obtain ⟨e, he⟩ := hfail 0 (Nat.succ_pos k)
      rw [Nat.add_zero] at he
      have hfail2 : ∀ i, i < k → ∃ e, dl (n0 + 1 + i) = .error e := by
        intro i hi
        have h0 := hfail (i + 1) (by omega)
        rwa [show n0 + (i + 1) = n0 + 1 + i by omega] at h0
      have hok2 : dl (n0 + 1 + k) = .ok () := by
        rwa [show n0 + (k + 1) = n0 + 1 + k by omega] at hok
      obtain ⟨errs2, h2⟩ := ih k (by simpa using hk) (n0 + 1)
        (errs ++ [downloadErrMsg retry pkg e c.url]) hfail2 hok2
      refine ⟨errs2, ?_⟩
      simp only [runPass, he]
      rw [h2]
      have hnn : n0 + 1 + k + 1 = n0 + (k + 1) + 1 := by omega
      rw [hnn]
      rfl

theorem runPass_all_fail (dl : Nat → Except String Unit) (pkg : String) (retry : Bool)
    (cands : List Candidate) (n0 : Nat) (errs : List String)
    (hfail : ∀ i, i < cands.length → ∃ e, dl (n0 + i) = .error e) :
    ∃ appended, runPass dl pkg retry cands n0 errs = (none, n0 + cands.length, errs ++ appended)
      ∧ ∀ c ∈ cands, ∃ e, downloadErrMsg retry pkg e c.url ∈ appended := by
  induction cands generalizing n0 errs with
  | nil => exact ⟨[], by simp [runPass], by simp⟩
  | cons c cs ih =>
    obtain ⟨e, he⟩ := hfail 0 (Nat.succ_pos cs.length)
    rw [Nat.add_zero] at he
    have hfail2 : ∀ i, i < cs.length → ∃ e, dl (n0 + 1 + i) = .error e := by
      intro i hi
      have h0 := hfail (i + 1) (by simpa using Nat.succ_lt_succ hi)
      rwa [show n0 + (i + 1) = n0 + 1 + i by omega] at h0
    obtain ⟨appended, h2, h4⟩ := ih (n0 + 1) (errs ++ [downloadErrMsg retry pkg e c.url]) hfail2
    refine ⟨downloadErrMsg retry pkg e c.url :: appended, ?_, ?_⟩
    · simp only [runPass, he]
      rw [h2]
      have hnn : n0 + 1 + cs.length = n0 + (c :: cs).length := by simp; omega
      rw [hnn, List.append_assoc]
      rfl
    · intro d hd
      rcases List.mem_cons.mp hd with rfl | hd
      · exact ⟨e, by simp⟩
      · obtain ⟨e2, he2⟩ := h4 d hd
        exact ⟨e2, by simp [he2]⟩

/-- Claim C2 — The Retrieval Engine iterates candidates in order and returns
the destination path of the first candidate whose download succeeds; the
call counter shows no further `download_file` call is made after the
success, so the retry pass is never entered (`k + 1 ≤ cands.length`).  If
and only if every candidate fails in the first pass is a second, single full
pass performed: when all `2·n` calls fail the engine gives up with the
exhaustion error after exactly `2·n` calls. -/
theorem retrieval_first_success_wins (dl : Nat → Except String Unit) (pkg : String)
    (cands : List Candidate) :
    (∀ (k : Nat) (hk : k < cands.length),
        (∀ i, i < k → ∃ e, dl i = .error e) → dl k = .ok () →
        (downloadPhase dl pkg cands).1 = .ok ((cands.get ⟨k, hk⟩).path)
          ∧ (downloadPhase dl pkg cands).2.1 = k + 1 ∧ k + 1 ≤ cands.length)
      ∧ ((∀ i, i < 2 * cands.length → ∃ e, dl i = .error e) →
        (downloadPhase dl pkg cands).1 = .error (allMirrorsFailedMsg pkg)
          ∧ (downloadPhase dl pkg cands).2.1 = 2 * cands.length) := by
  constructor
  · intro k hk hfail hok
    obtain ⟨errs2, h⟩ := runPass_success dl pkg false cands k hk 0 []
      (fun i hi => by simpa using hfail i hi) (by simpa using hok)
    have hphase : downloadPhase dl pkg cands
        = (.ok ((cands.get ⟨k, hk⟩).path), 0 + k + 1, errs2) := by
      simp only [downloadPhase, h]
    rw [hphase]
    exact ⟨rfl, by simp, hk⟩
  · intro hfail
    have hfail1 : ∀ i, i < cands.length → ∃ e, dl (0 + i) = .error e := by
      intro i hi
      simpa using hfail i (by omega)
    obtain ⟨app1, h1, _⟩ := runPass_all_fail dl pkg false cands 0 [] hfail1
    have hfail2 : ∀ i, i < cands.length → ∃ e, dl (0 + cands.length + i) = .error e := by
      intro i hi
      simpa using hfail (cands.length + i) (by omega)
    obtain ⟨app2, g1, _⟩ := runPass_all_fail dl pkg true cands (0 + cands.length)
      ([] ++ app1) hfail2
    have hphase : downloadPhase dl pkg cands
        = (.error (allMirrorsFailedMsg pkg), 0 + cands.length + cands.length,
            ([] ++ app1) ++ app2) := by
      simp only [downloadPhase, h1, g1]
    rw [hphase]
    refine ⟨rfl, ?_⟩
    show 0 + cands.length + cands.length = 2 * cands.length
    omega

/-- Claim C4 (amended) — When every candidate fails in both passes, the
Retrieval Engine raises the exhaustion error naming the package, and the
accumulated `download_errors` log (emitted to the diagnostic stream before
the raise when not quiet) contains, for every candidate, a first-pass entry
and a retry-pass entry each embedding that candidate's attempted URL; the
raised message itself does not enumerate the URLs. -/
theorem retrieval_exhaustion_error (dl : Nat → Except String Unit) (pkg : String)
    (cands : List Candidate)
    (hfail : ∀ i, i < 2 * cands.length → ∃ e, dl i = .error e) :
    (downloadPhase dl pkg cands).1 = .error (allMirrorsFailedMsg pkg)
      ∧ ∀ c ∈ cands,
          (∃ e, downloadErrMsg false pkg e c.url ∈ (downloadPhase dl pkg cands).2.2)
            ∧ ∃ e, downloadErrMsg true pkg e c.url ∈ (downloadPhase dl pkg cands).2.2 := by
  have hfail1 : ∀ i, i < cands.length → ∃ e, dl (0 + i) = .error e := by
    intro i hi
    simpa using hfail i (by omega)
  obtain ⟨app1, h1, h4⟩ := runPass_all_fail dl pkg false cands 0 [] hfail1
  have hfail2 : ∀ i, i < cands.length → ∃ e, dl (0 + cands.length + i) = .error e := by
    intro i hi
    simpa using hfail (cands.length + i) (by omega)
  obtain ⟨app2, g1, g4⟩ := runPass_all_fail dl pkg true cands (0 + cands.length)
    ([] ++ app1) hfail2
  have hphase : downloadPhase dl pkg cands
      = (.error (allMirrorsFailedMsg pkg), 0 + cands.length + cands.length,
          ([] ++ app1) ++ app2) := by
    simp only [downloadPhase, h1, g1]
  rw [hphase]
  refine ⟨rfl, ?_⟩
  intro c hc
  constructor
  · obtain ⟨e, he⟩ := h4 c hc
    exact ⟨e, by simp [he]⟩
  · obtain ⟨e, he⟩ := g4 c hc
    exact ⟨e, by simp [he]⟩

/-- Counterexample to C4 as stated: with a single candidate whose URL is
`https://mirror.example/pool/foo.deb` and downloads always failing, the
raised exhaustion error message does not contain the attempted URL (it only
names the package); the URLs appear in the separate `download_errors` log. -/
theorem retrieval_exhaustion_msg_cex :
    (downloadPhase (fun _ => .error "⌛ Timeout") "foo"
          [⟨⟨0, "1.0", "0"⟩, "1.0", "https://mirror.example/pool/foo.deb", "/c/foo.deb", "m"⟩]).1
        = .error "⛔ All mirrors failed to download: foo."
      ∧ strContains "⛔ All mirrors failed to download: foo."
          "https://mirror.example/pool/foo.deb" = false := by
  constructor
  · rfl
  · decide

/-- Witness for C2: three candidates, the first two failing with connection
errors and the third succeeding — the third candidate's path is returned
after exactly three calls, within the first pass. -/
theorem retrieval_first_success_wins_witness :
    (downloadPhase (fun i => if i = 2 then .ok () else .error "🔌 Connection failed") "foo"
          [⟨⟨0, "1.0", "0"⟩, "1.0", "https://m1/foo.deb", "/c/1.deb", "m1"⟩,
           ⟨⟨0, "1.0", "0"⟩, "1.0", "https://m2/foo.deb", "/c/2.deb", "m2"⟩,
           ⟨⟨0, "1.0", "0"⟩, "1.0", "https://m3/foo.deb", "/c/3.deb", "m3"⟩]).1
        = .ok "/c/3.deb"
      ∧ (downloadPhase (fun i => if i = 2 then .ok () else .error "🔌 Connection failed") "foo"
          [⟨⟨0, "1.0", "0"⟩, "1.0", "https://m1/foo.deb", "/c/1.deb", "m1"⟩,
           ⟨⟨0, "1.0", "0"⟩, "1.0", "https://m2/foo.deb", "/c/2.deb", "m2"⟩,
           ⟨⟨0, "1.0", "0"⟩, "1.0", "https://m3/foo.deb", "/c/3.deb", "m3"⟩]).2.1 = 3
      ∧ 3 ≤ 3 := by
  have h := (retrieval_first_success_wins
      (fun i => if i = 2 then .ok () else .error "🔌 Connection failed") "foo"
      [⟨⟨0, "1.0", "0"⟩, "1.0", "https://m1/foo.deb", "/c/1.deb", "m1"⟩,
       ⟨⟨0, "1.0", "0"⟩, "1.0", "https://m2/foo.deb", "/c/2.deb", "m2"⟩,
       ⟨⟨0, "1.0", "0"⟩, "1.0", "https://m3/foo.deb", "/c/3.deb", "m3"⟩]).1 2 (by decide)
      (fun i hi => ⟨"🔌 Connection failed", by interval_cases i <;> rfl⟩) rfl
  exact h

/-- Witness for C4 (amended) at one concrete always-failing candidate list. -/
theorem retrieval_exhaustion_error_witness :
    (downloadPhase (fun _ => .error "⌛ Timeout") "bar"
          [⟨⟨0, "2.0", "0"⟩, "2.0", "https://m/bar.deb", "/c/bar.deb", "m"⟩]).1
        = .error (allMirrorsFailedMsg "bar")
      ∧ ∀ c ∈ [(⟨⟨0, "2.0", "0"⟩, "2.0", "https://m/bar.deb", "/c/bar.deb", "m"⟩ : Candidate)],
          (∃ e, downloadErrMsg false "bar" e c.url
              ∈ (downloadPhase (fun _ => .error "⌛ Timeout") "bar"
                  [⟨⟨0, "2.0", "0"⟩, "2.0", "https://m/bar.deb", "/c/bar.deb", "m"⟩]).2.2)
            ∧ ∃ e, downloadErrMsg true "bar" e c.url
              ∈ (downloadPhase (fun _ => .error "⌛ Timeout") "bar"
                  [⟨⟨0, "2.0", "0"⟩, "2.0", "https://m/bar.deb", "/c/bar.deb", "m"⟩]).2.2 :=
  retrieval_exhaustion_error (fun _ => .error "⌛ Timeout") "bar"
    [⟨⟨0, "2.0", "0"⟩, "2.0", "https://m/bar.deb", "/c/bar.deb", "m"⟩]
    (fun _ _ => ⟨"⌛ Timeout", rfl⟩)

/-! ## Metadata Prober: scan, retry bound, cache, decompression -/

theorem scanGo_append (pkg : List Char) (lines rest : List String) (st : ScanState)
    (r : String × String) (h : scanGo pkg lines st = some r) :
    scanGo pkg (lines ++ rest) st = some r := by
  induction lines generalizing st with
  | nil => simp [scanGo] at h
  | cons l ls ih =>
    rw [List.cons_append]
    simp only [scanGo] at h ⊢
    cases hh : scanHit pkg (scanStep pkg st l) with
    | some r2 => rw [hh] at h; exact h
    | none => rw [hh] at h; exact ih _ h

/-- Claim C8 (amended) — The scan returns the fields of the first matching
record at the very line where both fields first become truthily present:
once it has returned, any further lines are never examined (appending lines
cannot change a successful result).  Within one record, each occurrence of a
field seen before that return point replaces the previously captured value:
with lines `Package: foo / Version: 1.0 / Version: 2.0 / Filename: ...`, the
later duplicate `Version` (still before the scan completes) wins. -/
theorem scan_parser_amended :
    (∀ (pkg : String) (lines rest : List String) (r : String × String),
        scanLines pkg lines = some r → scanLines pkg (lines ++ rest) = some r)
      ∧ scanLines "foo"
          ["Package: foo", "Version: 1.0", "Version: 2.0", "Filename: pool/foo.deb"]
          = some ("pool/foo.deb", "2.0") := by
  constructor
  · intro pkg lines rest r h
    exact scanGo_append _ _ _ _ _ h
  · decide

/-- Witness for C8 (amended): a record already complete after three lines is
returned unchanged when further lines follow. -/
theorem scan_parser_amended_witness :
    scanLines "foo"
        (["Package: foo", "Version: 1.0", "Filename: pool/foo.deb"] ++ ["Package: bar"])
      = some ("pool/foo.deb", "1.0") :=
  scan_parser_amended.1 "foo" ["Package: foo", "Version: 1.0", "Filename: pool/foo.deb"]
    ["Package: bar"] ("pool/foo.deb", "1.0") (by decide)

/-- Counterexample to C8 as stated ("the first occurrence of each field per
record wins"): a duplicate `Version:` line occurring before the `Filename:`
line replaces the earlier value — the scan returns version `2.0`, not the
first occurrence `1.0`. -/
theorem scan_first_occurrence_cex :
    scanLines "foo" ["Package: foo", "Version: 1.0", "Version: 2.0", "Filename: pool/foo.deb"]
        = some ("pool/foo.deb", "2.0")
      ∧ some (("pool/foo.deb", "2.0") : String × String) ≠ some ("pool/foo.deb", "1.0") := by
  constructor
  · decide
  · decide

theorem fetchMetaGo_all_fail (net : Nat → NetResult) (uniform : Nat → ℚ)
    (mirror release arch pkg component : String) (retries : Nat)
    (E : Nat → ReqError) (hnet : ∀ i, net i = .fail (E i)) :
    ∀ rem attempt,
      fetchMetaGo net uniform mirror release arch pkg component retries none attempt (rem + 1)
        = ⟨none,
            some (unableMsg (urlHostname (packagesUrl mirror release arch component)) retries
              (reasonOf (E (rem + attempt)))),
            none, rem + 1, (List.range rem).map (fun j => uniform (attempt + j))⟩ := by
  intro rem
  induction rem with
  | zero =>
    intro attempt
    rw [fetchMetaGo]
    simp [hnet]
  | succ rem ih =>
    intro attempt
    rw [fetchMetaGo]
    simp only [hnet]
    rw [if_neg (Nat.succ_ne_zero rem)]
    simp only [ih (attempt + 1)]
    have hidx : rem + (attempt + 1) = rem + 1 + attempt := by omega
    have hsleep : (List.range (rem + 1)).map (fun j => uniform (attempt + j))
        = uniform attempt :: (List.range rem).map (fun j => uniform (attempt + 1 + j)) := by
      rw [List.range_succ_eq_map, List.map_cons, List.map_map]
      refine congrArg₂ _ (by rw [Nat.add_zero]) ?_
      refine List.map_congr_left ?_
      intro a _
      show uniform (attempt + (a + 1)) = uniform (attempt + 1 + a)
      rw [show attempt + (a + 1) = attempt + 1 + a from by omega]
    rw [hidx, hsleep]

/-- Claim C3 — A metadata probe whose network request always fails makes
exactly `retries` attempts (one `session.get` per attempt), sleeping one
`random.uniform(0.2, 0.6)` draw between consecutive attempts (`retries - 1`
sleeps, each in `[0.2, 0.6]` by the library's guarantee, modelled as the
`huni` oracle bound), and then terminates by returning — not raising — a
status classifying the final exception via `reasonOf` (Timeout,
ConnectionError, HTTP-status-coded, or the exception class name). -/
theorem metadata_retry_classification (net : Nat → NetResult) (uniform : Nat → ℚ)
    (mirror release arch pkg component : String) (retries : Nat) (E : Nat → ReqError)
    (hr : 1 ≤ retries) (hnet : ∀ i, net i = .fail (E i))
    (huni : ∀ i, (1 : ℚ)/5 ≤ uniform i ∧ uniform i ≤ 3/5) :
    fetch_package_metadata net uniform mirror release arch pkg component none retries
      = ⟨none,
          some (unableMsg (urlHostname (packagesUrl mirror release arch component)) retries
            (reasonOf (E retries))),
          none, retries, (List.range (retries - 1)).map (fun j => uniform (1 + j))⟩
      ∧ ∀ d ∈ (List.range (retries - 1)).map (fun j => uniform (1 + j)),
          (1 : ℚ)/5 ≤ d ∧ d ≤ 3/5 := by
  obtain ⟨rem, rfl⟩ : ∃ n, retries = n + 1 := ⟨retries - 1, by omega⟩
  constructor
  · have h := fetchMetaGo_all_fail net uniform mirror release arch pkg component (rem + 1)
      E hnet rem 1
    rw [fetch_package_metadata]
    rw [show rem + 1 - 1 = rem from by omega]
    exact h
  · intro d hd
    obtain ⟨j, _, rfl⟩ := List.mem_map.mp hd
    exact huni (1 + j)

/-- Witness for C3 at an always-timing-out endpoint with default retries. -/
theorem metadata_retry_classification_witness :
    fetch_package_metadata (fun _ => .fail .timeout) (fun _ => (2 : ℚ)/5)
        "https://ftp.debian.org/debian" "bookworm" "amd64" "foo" "main" none 3
      = ⟨none,
          some (unableMsg
            (urlHostname (packagesUrl "https://ftp.debian.org/debian" "bookworm" "amd64" "main"))
            3 (reasonOf ((fun _ => ReqError.timeout) 3))),
          none, 3, (List.range (3 - 1)).map (fun _ => (2 : ℚ)/5)⟩
      ∧ ∀ d ∈ (List.range (3 - 1)).map (fun _ => (2 : ℚ)/5),
          (1 : ℚ)/5 ≤ d ∧ d ≤ 3/5 :=
  metadata_retry_classification (fun _ => .fail .timeout) (fun _ => (2 : ℚ)/5)
    "https://ftp.debian.org/debian" "bookworm" "amd64" "foo" "main" 3 (fun _ => .timeout)
    (by omega) (fun _ => rfl) (fun _ => ⟨by norm_num, by norm_num⟩)

/-- Claim C5 — A `fetch_package_metadata` call whose cache key is already
present issues no network request, answers from the cached lines, and
leaves the cache unchanged; and after one successful fetch populates the
cache, a second call for the same key issues no request, so two probes of
an unchanged index perform one fetch in total. -/
theorem metadata_cache_idempotent (net : Nat → NetResult) (uniform : Nat → ℚ)
    (mirror release arch pkg component : String) (retries : Nat) (lines : List String)
    (hr : 1 ≤ retries) :
    ((fetch_package_metadata net uniform mirror release arch pkg component
        (some lines) retries).requests = 0
      ∧ (fetch_package_metadata net uniform mirror release arch pkg component
          (some lines) retries).found = scanLines pkg lines
      ∧ (fetch_package_metadata net uniform mirror release arch pkg component
          (some lines) retries).cacheAfter = some lines)
      ∧ (net 1 = .ok lines →
          (fetch_package_metadata net uniform mirror release arch pkg component
              none retries).cacheAfter = some lines
            ∧ (fetch_package_metadata net uniform mirror release arch pkg component
                none retries).requests
              + (fetch_package_metadata net uniform mirror release arch pkg component
                  (fetch_package_metadata net uniform mirror release arch pkg component
                    none retries).cacheAfter retries).requests = 1) := by
  obtain ⟨rem, rfl⟩ : ∃ n, retries = n + 1 := ⟨retries - 1, by omega⟩
  have hwarm : ∀ cacheLines,
      (fetch_package_metadata net uniform mirror release arch pkg component
        (some cacheLines) (rem + 1)).requests = 0
      ∧ (fetch_package_metadata net uniform mirror release arch pkg component
          (some cacheLines) (rem + 1)).found = scanLines pkg cacheLines
      ∧ (fetch_package_metadata net uniform mirror release arch pkg component
          (some cacheLines) (rem + 1)).cacheAfter = some cacheLines := by
    intro cacheLines
    simp only [fetch_package_metadata, fetchMetaGo]
    cases hscan : scanLines pkg cacheLines <;> simp [hscan]
  refine ⟨hwarm lines, fun hok => ?_⟩
  have hcache : (fetch_package_metadata net uniform mirror release arch pkg component
      none (rem + 1)).cacheAfter = some lines := by
    simp only [fetch_package_metadata, fetchMetaGo, hok]
    cases hscan : scanLines pkg lines <;> simp [hscan]
  have hreq1 : (fetch_package_metadata net uniform mirror release arch pkg component
      none (rem + 1)).requests = 1 := by
    simp only [fetch_package_metadata, fetchMetaGo, hok]
    cases hscan : scanLines pkg lines <;> simp [hscan]
  refine ⟨hcache, ?_⟩
  rw [hcache, hreq1, (hwarm lines).1]

/-- Witness for C5 on a tiny concrete index. -/
theorem metadata_cache_idempotent_witness :
    ((fetch_package_metadata (fun _ => .ok ["Package: foo", "Version: 1.0", "Filename: f.deb"])
          (fun _ => (2 : ℚ)/5) "https://m" "r" "amd64" "foo" "main"
          (some ["Package: foo", "Version: 1.0", "Filename: f.deb"]) 3).requests = 0
      ∧ (fetch_package_metadata (fun _ => .ok ["Package: foo", "Version: 1.0", "Filename: f.deb"])
          (fun _ => (2 : ℚ)/5) "https://m" "r" "amd64" "foo" "main"
          (some ["Package: foo", "Version: 1.0", "Filename: f.deb"]) 3).found
          = scanLines "foo" ["Package: foo", "Version: 1.0", "Filename: f.deb"]
      ∧ (fetch_package_metadata (fun _ => .ok ["Package: foo", "Version: 1.0", "Filename: f.deb"])
          (fun _ => (2 : ℚ)/5) "https://m" "r" "amd64" "foo" "main"
          (some ["Package: foo", "Version: 1.0", "Filename: f.deb"]) 3).cacheAfter
          = some ["Package: foo", "Version: 1.0", "Filename: f.deb"])
      ∧ ((fun _ => NetResult.ok ["Package: foo", "Version: 1.0", "Filename: f.deb"]) 1
            = .ok ["Package: foo", "Version: 1.0", "Filename: f.deb"] →
          (fetch_package_metadata (fun _ => .ok ["Package: foo", "Version: 1.0", "Filename: f.deb"])
              (fun _ => (2 : ℚ)/5) "https://m" "r" "amd64" "foo" "main" none 3).cacheAfter
              = some ["Package: foo", "Version: 1.0", "Filename: f.deb"]
            ∧ (fetch_package_metadata
                (fun _ => .ok ["Package: foo", "Version: 1.0", "Filename: f.deb"])
                (fun _ => (2 : ℚ)/5) "https://m" "r" "amd64" "foo" "main" none 3).requests
              + (fetch_package_metadata
                  (fun _ => .ok ["Package: foo", "Version: 1.0", "Filename: f.deb"])
                  (fun _ => (2 : ℚ)/5) "https://m" "r" "amd64" "foo" "main"
                  (fetch_package_metadata
                    (fun _ => .ok ["Package: foo", "Version: 1.0", "Filename: f.deb"])
                    (fun _ => (2 : ℚ)/5) "https://m" "r" "amd64" "foo" "main" none 3).cacheAfter
                  3).requests = 1) :=
  metadata_cache_idempotent (fun _ => .ok ["Package: foo", "Version: 1.0", "Filename: f.deb"])
    (fun _ => (2 : ℚ)/5) "https://m" "r" "amd64" "foo" "main" 3
    ["Package: foo", "Version: 1.0", "Filename: f.deb"] (by omega)

theorem fetchMetaGo_gzip_stop (net : Nat → NetResult) (uniform : Nat → ℚ)
    (mirror release arch pkg component : String) (retries : Nat) (g : String)
    (E : Nat → ReqError) :
    ∀ (d attempt rem : Nat), d ≤ rem →
      (∀ i, attempt ≤ i → i < attempt + d → net i = .fail (E i)) →
      net (attempt + d) = .gzipFail g →
      fetchMetaGo net uniform mirror release arch pkg component retries none attempt (rem + 1)
        = ⟨none, some (decompressErrMsg (packagesUrl mirror release arch component) g),
            none, d + 1, (List.range d).map (fun j => uniform (attempt + j))⟩ := by
  intro d
  induction d with
  | zero =>
    intro attempt rem _ _ hgz
    rw [Nat.add_zero] at hgz
    rw [fetchMetaGo]
    simp [hgz]
  | succ d ih =>
    intro attempt rem hd hfail hgz
    obtain ⟨rem2, rfl⟩ : ∃ m, rem = m + 1 := ⟨rem - 1, by omega⟩
    have hfa : net attempt = .fail (E attempt) :=
      hfail attempt le_rfl (by omega)
    rw [fetchMetaGo]
    simp only [hfa]
    rw [if_neg (Nat.succ_ne_zero rem2)]
    have hrec := ih (attempt + 1) rem2 (by omega)
      (fun i h1 h2 => hfail i (by omega) (by omega))
      (by rwa [show attempt + 1 + d = attempt + (d + 1) from by omega])
    simp only [hrec]
    have hsleep : (List.range (d + 1)).map (fun j => uniform (attempt + j))
        = uniform attempt :: (List.range d).map (fun j => uniform (attempt + 1 + j)) := by
      rw [List.range_succ_eq_map, List.map_cons, List.map_map]
      refine congrArg₂ _ (by rw [Nat.add_zero]) ?_
      refine List.map_congr_left ?_
      intro a _
      show uniform (attempt + (a + 1)) = uniform (attempt + 1 + a)
      rw [show attempt + (a + 1) = attempt + 1 + a from by omega]
    rw [hsleep]

/-- Claim C9 — A probe whose index body fails gzip decompression on attempt
`j` (after `j - 1` transient network failures) returns at that very attempt
with the distinct decompression-failure status: exactly `j` requests are
issued no matter how many retries remain (`j ≤ retries`), no further attempt
or sleep follows the decompression failure, and the cache entry for the key
stays absent. -/
theorem metadata_decompress_no_retry (net : Nat → NetResult) (uniform : Nat → ℚ)
    (mirror release arch pkg component : String) (retries j : Nat) (g : String)
    (E : Nat → ReqError) (hj1 : 1 ≤ j) (hj : j ≤ retries)
    (hfail : ∀ i, 1 ≤ i → i < j → net i = .fail (E i))
    (hgz : net j = .gzipFail g) :
    fetch_package_metadata net uniform mirror release arch pkg component none retries
      = ⟨none, some (decompressErrMsg (packagesUrl mirror release arch component) g),
          none, j, (List.range (j - 1)).map (fun i => uniform (1 + i))⟩ := by
  obtain ⟨rem, rfl⟩ : ∃ n, retries = n + 1 := ⟨retries - 1, by omega⟩
  obtain ⟨d, rfl⟩ : ∃ m, j = m + 1 := ⟨j - 1, by omega⟩
  rw [fetch_package_metadata]
  have h := fetchMetaGo_gzip_stop net uniform mirror release arch pkg component (rem + 1) g E
    d 1 rem (by omega) (fun i h1 h2 => hfail i h1 (by omega))
    (by rwa [show (1 : Nat) + d = d + 1 from by omega])
  rw [h]
  rw [show d + 1 - 1 = d from by omega]

/-- Witness for C9: two timeouts then a truncated gzip stream, with ten
retries available — exactly three requests, then the decompress status. -/
theorem metadata_decompress_no_retry_witness :
    fetch_package_metadata
        (fun i => if i < 3 then .fail .timeout else .gzipFail "truncated stream")
        (fun _ => (2 : ℚ)/5) "https://m" "r" "amd64" "foo" "main" none 10
      = ⟨none, some (decompressErrMsg (packagesUrl "https://m" "r" "amd64" "main")
          "truncated stream"), none, 3,
          (List.range (3 - 1)).map (fun _ => (2 : ℚ)/5)⟩ :=
  metadata_decompress_no_retry
    (fun i => if i < 3 then .fail .timeout else .gzipFail "truncated stream")
    (fun _ => (2 : ℚ)/5) "https://m" "r" "amd64" "foo" "main" 10 3 "truncated stream"
    (fun _ => .timeout) (by omega) (by omega)
    (fun i h1 h2 => by interval_cases i <;> rfl) rfl

/-! ## Task Builder: per-descriptor filtering, fan-out and PPA routing -/

theorem buildGo_cons (σ : Nat → List String → List String) (pkg : String) (quiet : Bool)
    (i : Nat) (r : Repo) (rs : List Repo) :
    buildGo σ pkg quiet i (r :: rs)
      = ((perRepo (σ i) pkg quiet r).1 ++ (buildGo σ pkg quiet (i + 1) rs).1,
         (perRepo (σ i) pkg quiet r).2 ++ (buildGo σ pkg quiet (i + 1) rs).2) := rfl

theorem buildGo_append (σ : Nat → List String → List String) (pkg : String) (quiet : Bool)
    (i : Nat) (l1 l2 : List Repo) :
    (buildGo σ pkg quiet i (l1 ++ l2)).1
        = (buildGo σ pkg quiet i l1).1 ++ (buildGo σ pkg quiet (i + l1.length) l2).1
      ∧ (buildGo σ pkg quiet i (l1 ++ l2)).2
        = (buildGo σ pkg quiet i l1).2 ++ (buildGo σ pkg quiet (i + l1.length) l2).2 := by
  induction l1 generalizing i with
  | nil => simp [buildGo]
  | cons r rs ih =>
    rw [List.cons_append, buildGo_cons, buildGo_cons]
    obtain ⟨h1, h2⟩ := ih (i + 1)
    rw [h1, h2]
    have hidx : i + 1 + rs.length = i + (r :: rs).length := by
      simp [List.length_cons]
      omega
    rw [hidx, List.append_assoc, List.append_assoc]
    exact ⟨rfl, rfl⟩

theorem perRepo_missing (f : List String → List String) (pkg : String) (r : Repo)
    (hppa : r.ppa = none)
    (hmiss : pyLower (r.distro.getD "") = "" ∨ r.release.getD "" = "" ∨ r.arch.getD "" = "") :
    perRepo f pkg false r = ([], [Diag.missingKeys pkg r]) := by
  rcases hmiss with h | h | h <;> simp [perRepo, hppa, h]

/-- Claim C6 — A non-PPA descriptor with a missing (or Python-falsy)
`distro`, `release` or `arch` contributes zero probe tasks and exactly one
diagnostic (in non-quiet mode, where diagnostics are printed), and the Task
Builder — a total function, so it cannot throw — continues with the
surrounding descriptors unchanged. -/
theorem task_builder_missing_field (σ : Nat → List String → List String) (pkg : String)
    (i : Nat) (l1 l2 : List Repo) (r : Repo) (hppa : r.ppa = none)
    (hmiss : pyLower (r.distro.getD "") = "" ∨ r.release.getD "" = "" ∨ r.arch.getD "" = "") :
    (buildGo σ pkg false i (l1 ++ r :: l2)).1
        = (buildGo σ pkg false i l1).1 ++ (buildGo σ pkg false (i + l1.length + 1) l2).1
      ∧ (buildGo σ pkg false i (l1 ++ r :: l2)).2
        = (buildGo σ pkg false i l1).2
            ++ Diag.missingKeys pkg r :: (buildGo σ pkg false (i + l1.length + 1) l2).2 := by
  obtain ⟨h1, h2⟩ := buildGo_append σ pkg false i l1 (r :: l2)
  rw [h1, h2, buildGo_cons, perRepo_missing (σ (i + l1.length)) pkg r hppa hmiss]
  exact ⟨rfl, rfl⟩

/-- Witness for C6: a descriptor with `release` missing, between two valid
descriptors, yields exactly the surrounding descriptors' contributions plus
one missing-keys diagnostic. -/
theorem task_builder_missing_field_witness :
    (buildGo (fun _ l => l) "foo" false 0
          ([⟨none, some "debian", some "bookworm", some "amd64", none⟩]
            ++ (⟨none, some "debian", none, some "amd64", none⟩ : Repo)
              :: [⟨none, some "devuan", some "daedalus", some "amd64", none⟩])).1
        = (buildGo (fun _ l => l) "foo" false 0
            [⟨none, some "debian", some "bookworm", some "amd64", none⟩]).1
          ++ (buildGo (fun _ l => l) "foo" false
              (0 + [(⟨none, some "debian", some "bookworm", some "amd64", none⟩ : Repo)].length + 1)
              [⟨none, some "devuan", some "daedalus", some "amd64", none⟩]).1
      ∧ (buildGo (fun _ l => l) "foo" false 0
          ([⟨none, some "debian", some "bookworm", some "amd64", none⟩]
            ++ (⟨none, some "debian", none, some "amd64", none⟩ : Repo)
              :: [⟨none, some "devuan", some "daedalus", some "amd64", none⟩])).2
        = (buildGo (fun _ l => l) "foo" false 0
            [⟨none, some "debian", some "bookworm", some "amd64", none⟩]).2
          ++ Diag.missingKeys "foo" ⟨none, some "debian", none, some "amd64", none⟩
            :: (buildGo (fun _ l => l) "foo" false
                (0 + [(⟨none, some "debian", some "bookworm", some "amd64", none⟩ : Repo)].length + 1)
                [⟨none, some "devuan", some "daedalus", some "amd64", none⟩]).2 :=
  task_builder_missing_field (fun _ l => l) "foo" 0
    [⟨none, some "debian", some "bookworm", some "amd64", none⟩]
    [⟨none, some "devuan", some "daedalus", some "amd64", none⟩]
    ⟨none, some "debian", none, some "amd64", none⟩ rfl (Or.inr (Or.inl rfl))

theorem flatMap_singleton_map (cs : List String) (g : String → ProbeTask) :
    cs.flatMap (fun comp => [g comp]) = cs.map g := by
  induction cs with
  | nil => rfl
  | cons a as ih => simp [ih]

theorem perRepo_valid (f : List String → List String) (pkg : String) (quiet : Bool)
    (r : Repo) (m : String) (ms : List String)
    (hppa : r.ppa = none) (hrel : ¬r.release.getD "" = "") (harch : ¬r.arch.getD "" = "")
    (hml : get_mirrors_for_distro (pyLower (r.distro.getD "")) = some (m :: ms))
    (hne : f (m :: ms) ≠ []) :
    perRepo f pkg quiet r
      = ((r.components.getD ["main"]).map
          (fun comp => ⟨(f (m :: ms)).headD "", r.release.getD "", r.arch.getD "", pkg, comp⟩),
         []) := by
  have hdis : ¬pyLower (r.distro.getD "") = "" := by
    intro h
    rw [h] at hml
    exact Option.noConfusion hml
  cases hf : f (m :: ms) with
  | nil => exact absurd hf hne
  | cons s ss =>
    simp only [perRepo, hppa, Option.isSome_none, Bool.false_eq_true, if_false, hml, hf]
    rw [if_neg (by simp [hdis, hrel, harch])]
    simp [flatMap_singleton_map]

theorem perRepo_count (f : List String → List String) (pkg : String) (quiet : Bool) (r : Repo)
    (hperm : ∀ ml, (f ml).Perm ml) :
    (perRepo f pkg quiet r).1.length = repoTaskCount r := by
  cases hp : r.ppa with
  | some v => simp [perRepo, repoTaskCount, validRepo, hp]
  | none =>
    by_cases hd : pyLower (r.distro.getD "") = ""
    · simp [perRepo, repoTaskCount, validRepo, hp, hd]
    · by_cases hr : r.release.getD "" = ""
      · simp [perRepo, repoTaskCount, validRepo, hp, hd, hr]
      · by_cases ha : r.arch.getD "" = ""
        · simp [perRepo, repoTaskCount, validRepo, hp, hd, hr, ha]
        · cases hm : get_mirrors_for_distro (pyLower (r.distro.getD "")) with
          | none => simp [perRepo, repoTaskCount, validRepo, hp, hd, hr, ha, hm]
          | some ml =>
            cases ml with
            | nil => simp [perRepo, repoTaskCount, validRepo, hp, hd, hr, ha, hm]
            | cons m ms =>
              have hne : f (m :: ms) ≠ [] := by
                intro h0
                have hlen := (hperm (m :: ms)).length_eq
                rw [h0] at hlen
                simp at hlen
              rw [perRepo_valid f pkg quiet r m ms hp hr ha hm hne]
              simp [repoTaskCount, validRepo, hp, hd, hr, ha, hm]

/-- Claim C7 — For every valid descriptor the Task Builder emits exactly one
task per component, all carrying the first element of that descriptor's
freshly shuffled mirror-list copy (the shuffle oracle `σ` is indexed per
descriptor, one independent shuffle per descriptor per call) — never the
mirror × component cross-product; consequently the total task count is the
sum, over valid descriptors, of their component counts. -/
theorem task_builder_one_per_component (σ : Nat → List String → List String) (pkg : String)
    (quiet : Bool) (hperm : ∀ i ml, (σ i ml).Perm ml) :
    (∀ (i : Nat) (r : Repo) (m : String) (ms : List String),
        r.ppa = none → ¬r.release.getD "" = "" → ¬r.arch.getD "" = "" →
        get_mirrors_for_distro (pyLower (r.distro.getD "")) = some (m :: ms) →
        perRepo (σ i) pkg quiet r
          = ((r.components.getD ["main"]).map
              (fun comp =>
                ⟨(σ i (m :: ms)).headD "", r.release.getD "", r.arch.getD "", pkg, comp⟩),
             [])
          ∧ (perRepo (σ i) pkg quiet r).1.length = (r.components.getD ["main"]).length)
      ∧ ∀ repos : List Repo,
          (build_probe_tasks σ repos pkg quiet).1.length = (repos.map repoTaskCount).sum := by
  constructor
  · intro i r m ms hppa hrel harch hml
    have hne : σ i (m :: ms) ≠ [] := by
      intro h0
      have hlen := (hperm i (m :: ms)).length_eq
      rw [h0] at hlen
      simp at hlen
    have h := perRepo_valid (σ i) pkg quiet r m ms hppa hrel harch hml hne
    refine ⟨h, ?_⟩
    rw [h]
    simp
  · intro repos
    rw [build_probe_tasks]
    have aux : ∀ (i : Nat) (rs : List Repo),
        (buildGo σ pkg quiet i rs).1.length = (rs.map repoTaskCount).sum := by
      intro i rs
      induction rs generalizing i with
      | nil => rfl
      | cons r rs2 ih =>
        rw [buildGo_cons]
        simp [perRepo_count (σ i) pkg quiet r (hperm i), ih (i + 1)]
    exact aux 0 repos

/-- Witness for C7: one Debian descriptor with two components under the
identity shuffle yields exactly one task per component on the first Debian
mirror, and the global count over a two-descriptor list is three tasks. -/
theorem task_builder_one_per_component_witness :
    (perRepo (fun l => l) "foo" false
          ⟨none, some "debian", some "bookworm", some "amd64", some ["main", "contrib"]⟩
        = ([⟨"https://ftp.debian.org/debian", "bookworm", "amd64", "foo", "main"⟩,
            ⟨"https://ftp.debian.org/debian", "bookworm", "amd64", "foo", "contrib"⟩], [])
      ∧ (perRepo (fun l => l) "foo" false
          ⟨none, some "debian", some "bookworm", some "amd64", some ["main", "contrib"]⟩).1.length
        = 2)
      ∧ (build_probe_tasks (fun _ l => l)
          [⟨none, some "debian", some "bookworm", some "amd64", some ["main", "contrib"]⟩,
           ⟨none, some "devuan", some "daedalus", some "amd64", none⟩] "foo" false).1.length
        = 3 := by
  refine ⟨?_, ?_⟩
  · exact (task_builder_one_per_component (fun _ l => l) "foo" false
      (fun _ ml => List.Perm.refl ml)).1 0
      ⟨none, some "debian", some "bookworm", some "amd64", some ["main", "contrib"]⟩
      "https://ftp.debian.org/debian"
      ["https://uk.mirrors.clouvider.net/debian",
       "https://atl.mirrors.clouvider.net/debian",
       "https://ftp.tu-clausthal.de/debian"]
      rfl (by decide) (by decide) rfl
  · rw [(task_builder_one_per_component (fun _ l => l) "foo" false
      (fun _ ml => List.Perm.refl ml)).2
      [⟨none, some "debian", some "bookworm", some "amd64", some ["main", "contrib"]⟩,
       ⟨none, some "devuan", some "daedalus", some "amd64", none⟩]]
    decide

/-- Claim C10 — A descriptor containing the `"ppa"` key with any value
whatsoever (including the falsy empty string) contributes zero probe tasks
and zero diagnostics to the Task Builder, and is routed to the PPA path of
`get_latest_deb` (its `fetch_from_ppa` result, when truthy, joins the
candidates); key presence, not value truthiness, decides the routing. -/
theorem ppa_key_presence_routes (shufFn : List String → List String)
    (fetchFromPpa : Repo → Option Candidate) (pkg : String) (quiet : Bool) (v : String)
    (r : Repo) (hppa : r.ppa = some v) (l1 l2 : List Repo) :
    perRepo shufFn pkg quiet r = ([], [])
      ∧ collectPpaCandidates fetchFromPpa (l1 ++ r :: l2)
        = collectPpaCandidates fetchFromPpa l1 ++ (fetchFromPpa r).toList
            ++ collectPpaCandidates fetchFromPpa l2 := by
  constructor
  · simp [perRepo, hppa]
  · simp [collectPpaCandidates, hppa]

/-- Witness for C10 with the falsy value `""` for the `"ppa"` key. -/
theorem ppa_key_presence_routes_witness :
    perRepo id "foo" false ⟨some "", some "debian", some "bookworm", some "amd64", none⟩
        = ([], [])
      ∧ collectPpaCandidates (fun _ => none)
          ([] ++ (⟨some "", some "debian", some "bookworm", some "amd64", none⟩ : Repo) :: [])
        = collectPpaCandidates (fun _ => none) []
            ++ (none : Option Candidate).toList
            ++ collectPpaCandidates (fun _ => none) [] :=
  ppa_key_presence_routes id (fun _ => none) "foo" false ""
    ⟨some "", some "debian", some "bookworm", some "amd64", none⟩ rfl [] []

end Nbs
